import Mathlib

/-!
Verification development for the block-alignment and mutual-diff classification
core of `src/utils/textComparison.js`.

The JavaScript source is shallowly embedded below.  Conventions:

* JavaScript numbers used for similarity scores become `ℚ` (the scores are
  always ratios of small natural numbers; the literal `0.8` is written
  `(0.8 : ℚ)`).
* The external text-diff oracle (`diff_match_patch.diff_main`) is a parameter
  `d : DiffFn`; the contract the spec states for it (§6) is `DiffOracleOk`.
* DOM element contents that the structural-equality predicates read (table
  rows/cells, image src/alt) are carried in `Elem`; a possibly-null element
  reference is `Option Elem`.
* The source's `while` loop in `createOptimalAlignment` strictly advances at
  least one cursor per iteration, so it runs at most `len(left) + len(right)`
  iterations; it is embedded as the fuel-indexed `alignFuel` started with
  exactly that much fuel.  Giving the fuel explicitly keeps the definition
  structurally recursive hence kernel-computable.
-/

/-- One operation kind of the text-diff oracle's output
(`-1` / `0` / `1` in diff-match-patch). -/
inductive DiffOp where
  | delete : DiffOp
  | equal : DiffOp
  | insert : DiffOp
deriving DecidableEq

/-- One span of the text-diff oracle's output: an operation with the affected
substring (a `[op, text]` tuple in diff-match-patch). -/
structure DiffSpan where
  op : DiffOp
  text : String
deriving DecidableEq

/-- The type of the external text-diff oracle (`dmp.diff_main`). -/
abbrev DiffFn := String → String → List DiffSpan

/-- Total length of the spans marked equal: the `unchangedLength` accumulation
in `getTextSimilarity` (src lines 498-502). -/
def equalLen (spans : List DiffSpan) : Nat :=
  ((spans.filter fun s => s.op == DiffOp.equal).map fun s => s.text.length).sum

/-- Whitespace test matching the JavaScript `\s` class on the ASCII range
(`trim` / `replace(/\s+/g, ' ')` in `areTextsEqual`). -/
def isJsWs (c : Char) : Bool :=
  c == ' ' || c == '\t' || c == '\n' || c == '\r' || c == '\x0b' || c == '\x0c'

/-- Split a character list into maximal runs of non-whitespace characters. -/
def wsTokensAux : List Char → List Char → List (List Char)
  | [], cur => if cur.isEmpty then [] else [cur.reverse]
  | c :: cs, cur =>
    if isJsWs c then
      if cur.isEmpty then wsTokensAux cs [] else cur.reverse :: wsTokensAux cs []
    else wsTokensAux cs (c :: cur)

/-- The normalizer inside `areTextsEqual` (src line 508):
`text.trim().replace(/\s+/g, ' ').toLowerCase()`.  Trimming then collapsing
each internal whitespace run to one space is the same as joining the
whitespace-separated tokens with single spaces; lower-casing is ASCII
`Char.toLower` (the inputs of interest are ASCII). -/
def normalizeText (s : String) : String :=
  String.mk ((List.intercalate [' '] (wsTokensAux s.data [])).map Char.toLower)

/-- `areTextsEqual` (src lines 507-510): whitespace/case-insensitive equality. -/
def areTextsEqual (text1 text2 : String) : Bool :=
  normalizeText text1 == normalizeText text2

/-- `String.trim` re-implemented structurally over the character list (used by
`compareTableContent`; the core `String.trim` is not kernel-friendly). -/
def trimText (s : String) : String :=
  String.mk (((s.data.dropWhile isJsWs).reverse.dropWhile isJsWs).reverse)

/-- `getTextSimilarity` (src lines 488-505).  JavaScript `!text` on a string
is the empty-string test.  The oracle `d` stands for `dmp.diff_main`. -/
def getTextSimilarity (d : DiffFn) (text1 text2 : String) : ℚ :=
  if text1 = "" ∧ text2 = "" then 1
  else if text1 = "" ∨ text2 = "" then 0
  else
    let totalLength := max text1.length text2.length
    let unchangedLength := equalLen (d text1 text2)
    if 0 < totalLength then (unchangedLength : ℚ) / (totalLength : ℚ) else 0

/-- The parts of a DOM element that the structural-equality predicates read:
the trimmed-at-comparison-time cell texts of each `tr` row for tables, and the
`src` / `alt` attributes for images. -/
structure Elem where
  rows : List (List String)
  src : String
  alt : String
deriving DecidableEq

/-- One extracted document line/block, as built by `extractDocumentLines`
(src lines 141-151).  `element` is the underlying DOM element: `none` models a
null/missing reference.  The presentation-only fields `index` and `outerHTML`
are not consumed by the comparison pipeline and are omitted. -/
structure Line where
  text : String
  html : String
  tagName : String
  isEmpty : Bool
  isTable : Bool
  isImage : Bool
  element : Option Elem
deriving DecidableEq

/-- One alignment decision object `{ leftIndex, rightIndex, type }` pushed by
`createOptimalAlignment`; `type` is one of `"match"`, `"addition"`,
`"deletion"`, and a `null` index is `none`. -/
structure Decision where
  leftIndex : Option Nat
  rightIndex : Option Nat
  type : String
deriving DecidableEq

/-- The fold inside `findBestMatch` (src lines 319-325): starting from
`bestScore = 0`, `bestIndex = -1`, each candidate in order replaces the best
only on a strict improvement. -/
def findBestMatchAux (d : DiffFn) (targetText : String) :
    List Line → Nat → ℚ → Int → ℚ × Int
  | [], _, bestScore, bestIndex => (bestScore, bestIndex)
  | c :: cs, k, bestScore, bestIndex =>
    let similarity := getTextSimilarity d targetText c.text
    if bestScore < similarity then findBestMatchAux d targetText cs (k + 1) similarity (k : Int)
    else findBestMatchAux d targetText cs (k + 1) bestScore bestIndex

/-- `findBestMatch` (src lines 315-328): best-scoring candidate in a lookahead
window, returned as `(score, index)` with `-1` for "no index". -/
def findBestMatch (d : DiffFn) (targetLine : Line) (candidateLines : List Line) : ℚ × Int :=
  findBestMatchAux d targetLine.text candidateLines 0 0 (-1)

/-- The `while` loop of `createOptimalAlignment` (src lines 265-309), indexed
by fuel.  Every iteration of the source loop strictly advances a cursor, so
with fuel `len(left) + len(right)` the zero-fuel case is never reached.  The
branch structure mirrors the source exactly: direct match on
`similarity > 0.8 || areTextsEqual`, otherwise lookahead over the next three
blocks of each opposite list (`slice(idx + 1, idx + 4)`). -/
def alignFuel (d : DiffFn) (L R : List Line) : Nat → Nat → Nat → List Decision
  | 0, _, _ => []
  | fuel + 1, i, j =>
    if hi : i < L.length then
      if hj : j < R.length then
        let leftLine := L.get ⟨i, hi⟩
        let rightLine := R.get ⟨j, hj⟩
        if (0.8 : ℚ) < getTextSimilarity d leftLine.text rightLine.text ∨
            areTextsEqual leftLine.text rightLine.text = true then
          ⟨some i, some j, "match"⟩ :: alignFuel d L R fuel (i + 1) (j + 1)
        else
          let leftLookahead := findBestMatch d leftLine ((R.drop (j + 1)).take 3)
          let rightLookahead := findBestMatch d rightLine ((L.drop (i + 1)).take 3)
          if rightLookahead.1 < leftLookahead.1 ∧ (0.8 : ℚ) < leftLookahead.1 then
            ⟨none, some j, "addition"⟩ :: alignFuel d L R fuel i (j + 1)
          else if (0.8 : ℚ) < rightLookahead.1 then
            ⟨some i, none, "deletion"⟩ :: alignFuel d L R fuel (i + 1) j
          else
            ⟨some i, some j, "match"⟩ :: alignFuel d L R fuel (i + 1) (j + 1)
      else
        ⟨some i, none, "deletion"⟩ :: alignFuel d L R fuel (i + 1) j
    else
      if j < R.length then
        ⟨none, some j, "addition"⟩ :: alignFuel d L R fuel i (j + 1)
      else []

/-- `createOptimalAlignment` (src lines 260-312). -/
def createOptimalAlignment (d : DiffFn) (leftLines rightLines : List Line) : List Decision :=
  alignFuel d leftLines rightLines (leftLines.length + rightLines.length) 0 0

/-- `compareTableContent` (src lines 638-660): null on either side is `false`;
otherwise equal row counts, equal per-row cell counts, and equal trimmed cell
texts. -/
def compareTableContent : Option Elem → Option Elem → Bool
  | none, _ => false
  | _, none => false
  | some table1, some table2 =>
    table1.rows.length == table2.rows.length &&
      (table1.rows.zip table2.rows).all fun rowPair =>
        rowPair.1.length == rowPair.2.length &&
          (rowPair.1.zip rowPair.2).all fun cellPair =>
            trimText cellPair.1 == trimText cellPair.2

/-- `compareImageContent` (src lines 663-673): null on either side is `false`;
otherwise equality of `src` and `alt`. -/
def compareImageContent : Option Elem → Option Elem → Bool
  | none, _ => false
  | _, none => false
  | some img1, some img2 => img1.src == img2.src && img1.alt == img2.alt

/-- Entry pushed onto `leftProcessed` / `rightProcessed` by
`performLineMutualComparison`: either a spread of an input line with a
`highlight` tag (and possibly a word-diff payload), or a placeholder object
with a null element. -/
structure ProcessedLine where
  element : Option Elem
  text : String
  html : String
  tagName : String
  isEmpty : Bool
  isTable : Bool
  isImage : Bool
  highlight : String
  processedHtml : Option String
  placeholderText : Option String
deriving DecidableEq

/-- `{ ...line, highlight }` (no word-diff payload, no placeholder text). -/
def spreadWith (line : Line) (highlight : String) : ProcessedLine :=
  ⟨line.element, line.text, line.html, line.tagName, line.isEmpty, line.isTable,
    line.isImage, highlight, none, none⟩

/-- `{ ...line, highlight: 'modified', processedHtml }` (src lines 202-212). -/
def spreadDiff (line : Line) (payload : String) : ProcessedLine :=
  ⟨line.element, line.text, line.html, line.tagName, line.isEmpty, line.isTable,
    line.isImage, "modified", some payload, none⟩

/-- The left-side placeholder pushed for an `addition` decision
(src lines 219-229): a null element carrying the right block's kind and text. -/
def additionPlaceholder (rightLine : Line) : ProcessedLine :=
  ⟨none, "", "", rightLine.tagName, true, rightLine.isTable, rightLine.isImage,
    "empty-space-added", none, some rightLine.text⟩

/-- The right-side placeholder pushed for a `deletion` decision
(src lines 236-246). -/
def deletionPlaceholder (leftLine : Line) : ProcessedLine :=
  ⟨none, "", "", leftLine.tagName, true, leftLine.isTable, leftLine.isImage,
    "empty-space-removed", none, some leftLine.text⟩

/-- The external collaborators of the classification step: the text-diff
oracle, and `performWordLevelDiff` (src lines 441-453), whose internals
(DOM plain-text extraction, `diff_cleanupSemantic`, HTML escaping) are outside
the core; only the pair of highlighted payload strings it returns is consumed. -/
structure Externals where
  diff : DiffFn
  wordLevelDiff : String → String → String × String

/-- Output of classifying one `match` decision: the two pushed entries and the
increments applied to the `additions` / `deletions` counters. -/
structure MatchOut where
  leftP : ProcessedLine
  rightP : ProcessedLine
  adds : Nat
  dels : Nat
deriving DecidableEq

/-- The `case 'match'` branch of `performLineMutualComparison`
(src lines 173-216): table pairs use `compareTableContent`, image pairs use
`compareImageContent`, otherwise text equality then the word-level diff. -/
def classifyMatch (E : Externals) (leftLine rightLine : Line) : MatchOut :=
  if leftLine.isTable && rightLine.isTable then
    if compareTableContent leftLine.element rightLine.element then
      ⟨spreadWith leftLine "none", spreadWith rightLine "none", 0, 0⟩
    else ⟨spreadWith leftLine "modified", spreadWith rightLine "modified", 1, 1⟩
  else if leftLine.isImage && rightLine.isImage then
    if compareImageContent leftLine.element rightLine.element then
      ⟨spreadWith leftLine "none", spreadWith rightLine "none", 0, 0⟩
    else ⟨spreadWith leftLine "modified", spreadWith rightLine "modified", 1, 1⟩
  else if areTextsEqual leftLine.text rightLine.text then
    ⟨spreadWith leftLine "none", spreadWith rightLine "none", 0, 0⟩
  else
    let payloads := E.wordLevelDiff leftLine.html rightLine.html
    ⟨spreadDiff leftLine payloads.1, spreadDiff rightLine payloads.2, 1, 1⟩

/-- Accumulated output of the `alignment.forEach` in
`performLineMutualComparison`: the two processed lists and the two counters. -/
structure ProcessOut where
  leftP : List ProcessedLine
  rightP : List ProcessedLine
  adds : Nat
  dels : Nat
deriving DecidableEq

/-- The `alignment.forEach` loop of `performLineMutualComparison`
(src lines 168-250), processed decision by decision.  A decision whose index
does not resolve to a line cannot be produced by `createOptimalAlignment`
(the source would throw on it, caught by the top-level handler); it is skipped
here. -/
def processDecisions (E : Externals) (leftLines rightLines : List Line) :
    List Decision → ProcessOut
  | [] => ⟨[], [], 0, 0⟩
  | dec :: rest =>
    let t := processDecisions E leftLines rightLines rest
    if dec.type = "match" then
      match dec.leftIndex.bind (fun k => leftLines[k]?),
          dec.rightIndex.bind (fun k => rightLines[k]?) with
      | some leftLine, some rightLine =>
        let m := classifyMatch E leftLine rightLine
        ⟨m.leftP :: t.leftP, m.rightP :: t.rightP, m.adds + t.adds, m.dels + t.dels⟩
      | _, _ => t
    else if dec.type = "addition" then
      match dec.rightIndex.bind (fun k => rightLines[k]?) with
      | some rightLine =>
        ⟨additionPlaceholder rightLine :: t.leftP, spreadWith rightLine "added" :: t.rightP,
          1 + t.adds, t.dels⟩
      | none => t
    else if dec.type = "deletion" then
      match dec.leftIndex.bind (fun k => leftLines[k]?) with
      | some leftLine =>
        ⟨spreadWith leftLine "removed" :: t.leftP, deletionPlaceholder leftLine :: t.rightP,
          t.adds, 1 + t.dels⟩
      | none => t
    else t

/-- `{ additions, deletions, changes }` with
`changes = additions + deletions` (src line 255). -/
structure Summary where
  additions : Nat
  deletions : Nat
  changes : Nat
deriving DecidableEq

/-- `performLineMutualComparison` (src lines 160-257): align, then classify
every decision, returning both processed sequences and the summary. -/
def performLineMutualComparison (E : Externals) (leftLines rightLines : List Line) :
    List ProcessedLine × List ProcessedLine × Summary :=
  let t := processDecisions E leftLines rightLines
    (createOptimalAlignment E.diff leftLines rightLines)
  (t.leftP, t.rightP, ⟨t.adds, t.dels, t.adds + t.dels⟩)

/-- One `{ type, content }` entry of `leftDiffs` / `rightDiffs`. -/
structure DiffItem where
  type : String
  content : String
deriving DecidableEq

/-- One entry of the detailed report's `lines` array
(`generateSimpleDetailedReport`, src lines 577-610). -/
structure ReportLine where
  v1 : String
  v2 : String
  status : String
  diffHtml : String
  formatChanges : List String
deriving DecidableEq

/-- The object `compareHtmlDocuments` resolves with. -/
structure CompareResult where
  leftDiffs : List DiffItem
  rightDiffs : List DiffItem
  summary : Summary
  detailedLines : List ReportLine
  detailedTables : List String
  detailedImages : List String
deriving DecidableEq

/-- The value built in the `catch` handler of `compareHtmlDocuments`
(src lines 58-63): both sides rendered as one equal-typed block holding the
unmodified input HTML, a zero summary, and an empty detailed report. -/
def fallbackResult (leftHtml rightHtml : String) : CompareResult :=
  ⟨[⟨"equal", leftHtml⟩], [⟨"equal", rightHtml⟩], ⟨0, 0, 0⟩, [], [], []⟩

/-- `compareHtmlDocuments` (src lines 27-67) as a function of the outcome of
its `try` body (extraction, alignment and classification run against the DOM;
a body that throws is the `Except.error` case).  The executor only ever calls
`resolve` — on success with the body's result, on any caught error with
`fallbackResult` — so the promise resolution value is this total function of
the body outcome; the `setTimeout` deferral is timing-only and out of core
scope (spec §5, §9). -/
def compareHtmlDocumentsResolved (leftHtml rightHtml : String)
    (body : Except String CompareResult) : CompareResult :=
  match body with
  | Except.ok r => r
  | Except.error _ => fallbackResult leftHtml rightHtml

/-- The contract of the external text-diff oracle: concatenating the spans'
texts by source side reconstructs each input (spec §6), and diffing a string
against itself yields the single equal span (diff-match-patch returns
`[[0, text]]` immediately on equal nonempty inputs). -/
structure DiffOracleOk (d : DiffFn) : Prop where
  left_recon : ∀ a b : String,
    String.join (((d a b).filter fun s => s.op != DiffOp.insert).map fun s => s.text) = a
  right_recon : ∀ a b : String,
    String.join (((d a b).filter fun s => s.op != DiffOp.delete).map fun s => s.text) = b
  self_eq : ∀ a : String, a ≠ "" → d a a = [⟨DiffOp.equal, a⟩]

/-- A minimal concrete oracle satisfying `DiffOracleOk`: equal inputs yield one
equal span, unequal inputs a delete of the left and an insert of the right. -/
def simpleDiff (a b : String) : List DiffSpan :=
  if a = b then (if a = "" then [] else [⟨DiffOp.equal, a⟩])
  else [⟨DiffOp.delete, a⟩, ⟨DiffOp.insert, b⟩]

/-- Longest common initial run of two character lists. -/
def commonStartAux : List Char → List Char → List Char
  | a :: as, b :: bs => if a = b then a :: commonStartAux as bs else []
  | _, _ => []

/-- A concrete oracle that reports the common initial run of the two strings
as an equal span (the prefix-trimming step of diff-match-patch); it can
produce fractional similarity scores such as exactly `0.8`. -/
def headDiff (a b : String) : List DiffSpan :=
  let p := commonStartAux a.data b.data
  let restA := String.mk (a.data.drop p.length)
  let restB := String.mk (b.data.drop p.length)
  (if p.isEmpty then [] else [⟨DiffOp.equal, String.mk p⟩]) ++
    (if restA = "" then [] else [⟨DiffOp.delete, restA⟩]) ++
    (if restB = "" then [] else [⟨DiffOp.insert, restB⟩])

/-- A text line with the given text (tag `p`, no table/image structure). -/
def mkText (s : String) : Line :=
  ⟨s, s, "p", s == "", false, false, some ⟨[], "", ""⟩⟩

/-- A one-row, one-cell table line whose plain text is the cell text. -/
def mkTable (s : String) : Line :=
  ⟨s, s, "table", false, true, false, some ⟨[[s]], "", ""⟩⟩

/-- A table line whose element reference is null. -/
def mkTableNoElem (s : String) : Line :=
  ⟨s, s, "table", false, true, false, none⟩

/-- Concrete externals for witnesses and counterexamples: the simple oracle and
a word-diff stand-in (no examined property depends on the payload strings). -/
def E0 : Externals :=
  ⟨simpleDiff, fun a b => (a, b)⟩

section Helpers

lemma str_length_pos (a : String) (h : a ≠ "") : 0 < a.length := by
  obtain ⟨l⟩ := a
  cases l with
  | nil => exact absurd rfl h
  | cons c cs => simp [String.length]

lemma foldl_append_length (l : List String) :
    ∀ s : String, (l.foldl (· ++ ·) s).length = s.length + (l.map String.length).sum := by
  induction l with
  | nil => intro s; simp
  | cons x xs ih =>
    intro s
    simp only [List.foldl, List.map, List.sum_cons, ih, String.length_append]
    omega

lemma join_length (l : List String) : (String.join l).length = (l.map String.length).sum := by
  simp [String.join, foldl_append_length]

lemma sum_filter_le (p q : DiffSpan → Bool) (h : ∀ s, p s = true → q s = true) :
    ∀ l : List DiffSpan,
      ((l.filter p).map fun s => s.text.length).sum ≤
        ((l.filter q).map fun s => s.text.length).sum := by
  intro l
  induction l with
  | nil => simp
  | cons s l ih =>
    by_cases hp : p s = true
    · have hq := h s hp
      simp only [List.filter_cons, hp, hq, if_pos, List.map, List.sum_cons]
      omega
    · by_cases hq : q s = true
      · simp only [List.filter_cons, hp, hq, List.map, List.sum_cons]
        simpa using Nat.le_trans ih (Nat.le_add_left _ _)
      · simp only [List.filter_cons, hp, hq]
        simpa using ih

lemma equalLen_le_left {d : DiffFn} (hd : DiffOracleOk d) (a b : String) :
    equalLen (d a b) ≤ a.length := by
  have h1 : equalLen (d a b) ≤
      (((d a b).filter fun s => s.op != DiffOp.insert).map fun s => s.text.length).sum := by
    apply sum_filter_le
    intro s hs
    cases hop : s.op <;> simp_all
  have h2 : (((d a b).filter fun s => s.op != DiffOp.insert).map fun s => s.text.length).sum
      = a.length := by
    conv_rhs => rw [← hd.left_recon a b]
    rw [join_length, List.map_map]
    rfl
  omega

lemma equalLen_le_right {d : DiffFn} (hd : DiffOracleOk d) (a b : String) :
    equalLen (d a b) ≤ b.length := by
  have h1 : equalLen (d a b) ≤
      (((d a b).filter fun s => s.op != DiffOp.delete).map fun s => s.text.length).sum := by
    apply sum_filter_le
    intro s hs
    cases hop : s.op <;> simp_all
  have h2 : (((d a b).filter fun s => s.op != DiffOp.delete).map fun s => s.text.length).sum
      = b.length := by
    conv_rhs => rw [← hd.right_recon a b]
    rw [join_length, List.map_map]
    rfl
  omega

lemma getTextSimilarity_both_empty (d : DiffFn) : getTextSimilarity d "" "" = 1 := by
  simp [getTextSimilarity]

lemma getTextSimilarity_empty_left (d : DiffFn) (b : String) (hb : b ≠ "") :
    getTextSimilarity d "" b = 0 := by
  simp [getTextSimilarity, hb]

lemma getTextSimilarity_empty_right (d : DiffFn) (a : String) (ha : a ≠ "") :
    getTextSimilarity d a "" = 0 := by
  simp [getTextSimilarity, ha]

lemma getTextSimilarity_eq_div (d : DiffFn) (a b : String) (ha : a ≠ "") (hb : b ≠ "") :
    getTextSimilarity d a b = (equalLen (d a b) : ℚ) / ((max a.length b.length : Nat) : ℚ) := by
  have hmax : 0 < max a.length b.length :=
    Nat.lt_of_lt_of_le (str_length_pos a ha) (Nat.le_max_left _ _)
  simp [getTextSimilarity, ha, hb, hmax]

lemma getTextSimilarity_self {d : DiffFn} (hd : DiffOracleOk d) (a : String) :
    getTextSimilarity d a a = 1 := by
  by_cases ha : a = ""
  · subst ha; exact getTextSimilarity_both_empty d
  · rw [getTextSimilarity_eq_div d a a ha ha, hd.self_eq a ha]
    have hlen : equalLen [⟨DiffOp.equal, a⟩] = a.length := by simp [equalLen]
    have hpos : (0 : ℚ) < ((a.length : Nat) : ℚ) := by
      exact_mod_cast str_length_pos a ha
    rw [hlen, Nat.max_self]
    exact div_self (ne_of_gt hpos)

lemma getTextSimilarity_nonneg (d : DiffFn) (a b : String) :
    0 ≤ getTextSimilarity d a b := by
  unfold getTextSimilarity
  split
  · norm_num
  · split
    · norm_num
    · dsimp only
      split
      · positivity
      · norm_num

lemma getTextSimilarity_le_one {d : DiffFn} (hd : DiffOracleOk d) (a b : String) :
    getTextSimilarity d a b ≤ 1 := by
  by_cases ha : a = ""
  · by_cases hb : b = ""
    · subst ha; subst hb; rw [getTextSimilarity_both_empty]
    · subst ha; rw [getTextSimilarity_empty_left d b hb]; norm_num
  · by_cases hb : b = ""
    · subst hb; rw [getTextSimilarity_empty_right d a ha]; norm_num
    · rw [getTextSimilarity_eq_div d a b ha hb]
      have hle : equalLen (d a b) ≤ max a.length b.length :=
        Nat.le_trans (equalLen_le_left hd a b) (Nat.le_max_left _ _)
      have hnn : (0 : ℚ) ≤ ((max a.length b.length : Nat) : ℚ) := by positivity
      exact div_le_one_of_le₀ (by exact_mod_cast hle) hnn

lemma simpleDiff_ok : DiffOracleOk simpleDiff := by
  refine ⟨?_, ?_, ?_⟩
  · intro a b
    by_cases hab : a = b
    · subst hab
      by_cases ha : a = ""
      · subst ha; simp [simpleDiff, String.join]
      · simp [simpleDiff, ha, String.join]
    · simp [simpleDiff, hab, String.join]
  · intro a b
    by_cases hab : a = b
    · subst hab
      by_cases ha : a = ""
      · subst ha; simp [simpleDiff, String.join]
      · simp [simpleDiff, ha, String.join]
    · simp [simpleDiff, hab, String.join]
  · intro a ha
    simp [simpleDiff, ha]

lemma simpleDiff_sim (a b : String) :
    getTextSimilarity simpleDiff a b = if a = b then 1 else 0 := by
  by_cases hab : a = b
  · subst hab
    rw [if_pos rfl]
    exact getTextSimilarity_self simpleDiff_ok a
  · rw [if_neg hab]
    by_cases ha : a = ""
    · subst ha
      exact getTextSimilarity_empty_left simpleDiff b fun h => hab h.symm
    · by_cases hb : b = ""
      · subst hb
        exact getTextSimilarity_empty_right simpleDiff a ha
      · rw [getTextSimilarity_eq_div simpleDiff a b ha hb]
        have : equalLen (simpleDiff a b) = 0 := by
          simp [simpleDiff, hab, equalLen]
        rw [this]
        norm_num

end Helpers

section AlignLemmas

lemma areTextsEqual_self (t : String) : areTextsEqual t t = true := by
  simp [areTextsEqual]

lemma alignFuel_stop (d : DiffFn) (L R : List Line) (fuel i j : Nat)
    (hi : L.length ≤ i) (hj : R.length ≤ j) : alignFuel d L R fuel i j = [] := by
  cases fuel with
  | zero => rfl
  | succ fuel =>
    simp only [alignFuel]
    rw [dif_neg (by omega : ¬ i < L.length), if_neg (by omega : ¬ j < R.length)]

lemma alignFuel_step_match (d : DiffFn) (L R : List Line) (fuel i j : Nat)
    (hi : i < L.length) (hj : j < R.length)
    (hcond : (0.8 : ℚ) < getTextSimilarity d (L.get ⟨i, hi⟩).text (R.get ⟨j, hj⟩).text ∨
      areTextsEqual (L.get ⟨i, hi⟩).text (R.get ⟨j, hj⟩).text = true) :
    alignFuel d L R (fuel + 1) i j =
      ⟨some i, some j, "match"⟩ :: alignFuel d L R fuel (i + 1) (j + 1) := by
  simp only [alignFuel]
  rw [dif_pos hi, dif_pos hj]
  exact if_pos hcond

lemma alignFuel_step_else (d : DiffFn) (L R : List Line) (fuel i j : Nat)
    (hi : i < L.length) (hj : j < R.length)
    (hfail : ¬((0.8 : ℚ) < getTextSimilarity d (L.get ⟨i, hi⟩).text (R.get ⟨j, hj⟩).text ∨
      areTextsEqual (L.get ⟨i, hi⟩).text (R.get ⟨j, hj⟩).text = true)) :
    alignFuel d L R (fuel + 1) i j =
      (if (findBestMatch d (R.get ⟨j, hj⟩) ((L.drop (i + 1)).take 3)).1 <
            (findBestMatch d (L.get ⟨i, hi⟩) ((R.drop (j + 1)).take 3)).1 ∧
          (0.8 : ℚ) < (findBestMatch d (L.get ⟨i, hi⟩) ((R.drop (j + 1)).take 3)).1 then
        ⟨none, some j, "addition"⟩ :: alignFuel d L R fuel i (j + 1)
      else if (0.8 : ℚ) < (findBestMatch d (R.get ⟨j, hj⟩) ((L.drop (i + 1)).take 3)).1 then
        ⟨some i, none, "deletion"⟩ :: alignFuel d L R fuel (i + 1) j
      else ⟨some i, some j, "match"⟩ :: alignFuel d L R fuel (i + 1) (j + 1)) := by
  simp only [alignFuel]
  rw [dif_pos hi, dif_pos hj]
  exact if_neg hfail

lemma alignFuel_refs (d : DiffFn) (L R : List Line) :
    ∀ fuel i j, (L.length - i) + (R.length - j) ≤ fuel →
      (alignFuel d L R fuel i j).filterMap (fun dec => dec.leftIndex) =
        List.range' i (L.length - i) ∧
      (alignFuel d L R fuel i j).filterMap (fun dec => dec.rightIndex) =
        List.range' j (R.length - j) := by
  intro fuel
  induction fuel with
  | zero =>
    intro i j h
    have hL : L.length - i = 0 := by omega
    have hR : R.length - j = 0 := by omega
    simp [alignFuel, hL, hR]
  | succ fuel ih =>
    intro i j h
    by_cases hi : i < L.length
    · by_cases hj : j < R.length
      · have hL : L.length - i = (L.length - (i + 1)) + 1 := by omega
        have hR : R.length - j = (R.length - (j + 1)) + 1 := by omega
        by_cases hcond : (0.8 : ℚ) < getTextSimilarity d (L.get ⟨i, hi⟩).text
            (R.get ⟨j, hj⟩).text ∨
            areTextsEqual (L.get ⟨i, hi⟩).text (R.get ⟨j, hj⟩).text = true
        · obtain ⟨ihl, ihr⟩ := ih (i + 1) (j + 1) (by omega)
          rw [alignFuel_step_match d L R fuel i j hi hj hcond]
          constructor
          · rw [hL, List.range'_succ]
            simpa using ihl
          · rw [hR, List.range'_succ]
            simpa using ihr
        · rw [alignFuel_step_else d L R fuel i j hi hj hcond]
          split
          · obtain ⟨ihl, ihr⟩ := ih i (j + 1) (by omega)
            constructor
            · simpa using ihl
            · rw [hR, List.range'_succ]
              simpa using ihr
          · split
            · obtain ⟨ihl, ihr⟩ := ih (i + 1) j (by omega)
              constructor
              · rw [hL, List.range'_succ]
                simpa using ihl
              · simpa using ihr
            · obtain ⟨ihl, ihr⟩ := ih (i + 1) (j + 1) (by omega)
              constructor
              · rw [hL, List.range'_succ]
                simpa using ihl
              · rw [hR, List.range'_succ]
                simpa using ihr
      · have hL : L.length - i = (L.length - (i + 1)) + 1 := by omega
        have hR : R.length - j = 0 := by omega
        obtain ⟨ihl, ihr⟩ := ih (i + 1) j (by omega)
        simp only [alignFuel]
        rw [dif_pos hi, dif_neg hj]
        constructor
        · rw [hL, List.range'_succ]
          simpa using ihl
        · rw [hR]
          simpa [hR] using ihr
    · by_cases hj : j < R.length
      · have hL : L.length - i = 0 := by omega
        have hR : R.length - j = (R.length - (j + 1)) + 1 := by omega
        obtain ⟨ihl, ihr⟩ := ih i (j + 1) (by omega)
        simp only [alignFuel]
        rw [dif_neg hi, if_pos hj]
        constructor
        · rw [hL]
          simpa [hL] using ihl
        · rw [hR, List.range'_succ]
          simpa using ihr
      · have hL : L.length - i = 0 := by omega
        have hR : R.length - j = 0 := by omega
        rw [alignFuel_stop d L R (fuel + 1) i j (by omega) (by omega), hL, hR]
        simp

lemma alignFuel_self (d : DiffFn) (L : List Line) :
    ∀ fuel i, L.length - i ≤ fuel →
      alignFuel d L L fuel i i =
        (List.range' i (L.length - i)).map (fun k => ⟨some k, some k, "match"⟩) := by
  intro fuel
  induction fuel with
  | zero =>
    intro i h
    have h0 : L.length - i = 0 := by omega
    simp [alignFuel, h0]
  | succ fuel ih =>
    intro i h
    by_cases hi : i < L.length
    · have hL : L.length - i = (L.length - (i + 1)) + 1 := by omega
      rw [alignFuel_step_match d L L fuel i i hi hi (Or.inr (areTextsEqual_self _)),
        ih (i + 1) (by omega), hL, List.range'_succ]
      simp
    · have h0 : L.length - i = 0 := by omega
      rw [alignFuel_stop d L L (fuel + 1) i i (by omega) (by omega), h0]
      simp

lemma alignFuel_nil_left (d : DiffFn) (R : List Line) :
    ∀ fuel i j, R.length - j ≤ fuel →
      alignFuel d [] R fuel i j =
        (List.range' j (R.length - j)).map (fun k => ⟨none, some k, "addition"⟩) := by
  intro fuel
  induction fuel with
  | zero =>
    intro i j h
    have h0 : R.length - j = 0 := by omega
    simp [alignFuel, h0]
  | succ fuel ih =>
    intro i j h
    have hi : ¬ i < ([] : List Line).length := by simp
    by_cases hj : j < R.length
    · have hR : R.length - j = (R.length - (j + 1)) + 1 := by omega
      simp only [alignFuel]
      rw [dif_neg hi, if_pos hj, ih i (j + 1) (by omega), hR, List.range'_succ]
      simp
    · have h0 : R.length - j = 0 := by omega
      simp only [alignFuel]
      rw [dif_neg hi, if_neg hj, h0]
      simp

end AlignLemmas

section ClassifyLemmas

lemma processDecisions_cons_match (E : Externals) (L R : List Line) (rest : List Decision)
    (i j : Nat) (hi : i < L.length) (hj : j < R.length) :
    processDecisions E L R (⟨some i, some j, "match"⟩ :: rest) =
      ⟨(classifyMatch E (L.get ⟨i, hi⟩) (R.get ⟨j, hj⟩)).leftP ::
          (processDecisions E L R rest).leftP,
        (classifyMatch E (L.get ⟨i, hi⟩) (R.get ⟨j, hj⟩)).rightP ::
          (processDecisions E L R rest).rightP,
        (classifyMatch E (L.get ⟨i, hi⟩) (R.get ⟨j, hj⟩)).adds +
          (processDecisions E L R rest).adds,
        (classifyMatch E (L.get ⟨i, hi⟩) (R.get ⟨j, hj⟩)).dels +
          (processDecisions E L R rest).dels⟩ := by
  simp [processDecisions, Option.bind, List.getElem?_eq_getElem hi,
    List.getElem?_eq_getElem hj]

lemma processDecisions_cons_addition (E : Externals) (L R : List Line) (rest : List Decision)
    (j : Nat) (hj : j < R.length) :
    processDecisions E L R (⟨none, some j, "addition"⟩ :: rest) =
      ⟨additionPlaceholder (R.get ⟨j, hj⟩) :: (processDecisions E L R rest).leftP,
        spreadWith (R.get ⟨j, hj⟩) "added" :: (processDecisions E L R rest).rightP,
        1 + (processDecisions E L R rest).adds, (processDecisions E L R rest).dels⟩ := by
  simp [processDecisions, Option.bind, List.getElem?_eq_getElem hj]

lemma processDecisions_cons_deletion (E : Externals) (L R : List Line) (rest : List Decision)
    (i : Nat) (hi : i < L.length) :
    processDecisions E L R (⟨some i, none, "deletion"⟩ :: rest) =
      ⟨spreadWith (L.get ⟨i, hi⟩) "removed" :: (processDecisions E L R rest).leftP,
        deletionPlaceholder (L.get ⟨i, hi⟩) :: (processDecisions E L R rest).rightP,
        (processDecisions E L R rest).adds, 1 + (processDecisions E L R rest).dels⟩ := by
  simp [processDecisions, Option.bind, List.getElem?_eq_getElem hi]

lemma zip_self_all {α : Type} (l : List α) (f : α × α → Bool)
    (h : ∀ x ∈ l, f (x, x) = true) : (l.zip l).all f = true := by
  induction l with
  | nil => rfl
  | cons x xs ih =>
    simp only [List.zip_cons_cons, List.all_cons, Bool.and_eq_true]
    exact ⟨h x (List.mem_cons_self x xs), ih fun y hy => h y (List.mem_cons_of_mem x hy)⟩

lemma compareTableContent_self (e : Elem) : compareTableContent (some e) (some e) = true := by
  show (e.rows.length == e.rows.length && _) = true
  rw [Bool.and_eq_true]
  refine ⟨beq_self_eq_true _, ?_⟩
  apply zip_self_all
  intro r hr
  rw [Bool.and_eq_true]
  refine ⟨beq_self_eq_true _, ?_⟩
  apply zip_self_all
  intro c hc
  exact beq_self_eq_true _

lemma compareImageContent_self (e : Elem) : compareImageContent (some e) (some e) = true := by
  simp [compareImageContent]

lemma classifyMatch_self (E : Externals) (l : Line) (h : l.element.isSome = true) :
    classifyMatch E l l = ⟨spreadWith l "none", spreadWith l "none", 0, 0⟩ := by
  obtain ⟨e, he⟩ := Option.isSome_iff_exists.mp h
  unfold classifyMatch
  cases ht : l.isTable
  · cases himg : l.isImage
    · simp [ht, himg, areTextsEqual_self]
    · simp [ht, himg, he, compareImageContent_self]
  · simp [ht, he, compareTableContent_self]

lemma processDecisions_additions (E : Externals) (R : List Line) :
    ∀ n j, j + n = R.length →
      processDecisions E [] R
          ((List.range' j n).map (fun k => ⟨none, some k, "addition"⟩)) =
        ⟨(R.drop j).map additionPlaceholder, (R.drop j).map (fun r => spreadWith r "added"),
          n, 0⟩ := by
  intro n
  induction n with
  | zero =>
    intro j h
    have hj : j = R.length := by omega
    subst hj
    simp [processDecisions, List.drop_length, List.range']
  | succ n ih =>
    intro j h
    have hj : j < R.length := by omega
    have hdrop : List.drop j R = R.get ⟨j, hj⟩ :: List.drop (j + 1) R :=
      List.drop_eq_getElem_cons hj
    rw [List.range'_succ, List.map_cons,
      processDecisions_cons_addition E [] R _ j hj, ih (j + 1) (by omega), hdrop]
    simp only [List.map_cons, ProcessOut.mk.injEq, Nat.add_comm 1 n]

lemma processDecisions_selfMatches (E : Externals) (L : List Line)
    (helem : ∀ l ∈ L, l.element.isSome = true) :
    ∀ n j, j + n = L.length →
      processDecisions E L L
          ((List.range' j n).map (fun k => ⟨some k, some k, "match"⟩)) =
        ⟨(L.drop j).map (fun l => spreadWith l "none"),
          (L.drop j).map (fun l => spreadWith l "none"), 0, 0⟩ := by
  intro n
  induction n with
  | zero =>
    intro j h
    have hj : j = L.length := by omega
    subst hj
    simp [processDecisions, List.drop_length, List.range']
  | succ n ih =>
    intro j h
    have hj : j < L.length := by omega
    have hself := classifyMatch_self E (L.get ⟨j, hj⟩)
      (helem (L.get ⟨j, hj⟩) (L.get_mem j hj))
    have hdrop : List.drop j L = L.get ⟨j, hj⟩ :: List.drop (j + 1) L :=
      List.drop_eq_getElem_cons hj
    rw [List.range'_succ, List.map_cons,
      processDecisions_cons_match E L L _ j j hj hj, hself, ih (j + 1) (by omega), hdrop]
    simp only [List.map_cons, ProcessOut.mk.injEq, Nat.add_zero]

end ClassifyLemmas

section BestMatchLemmas

lemma findBestMatchAux_inv (d : DiffFn) (tT : String) :
    ∀ (cs : List Line) (k0 : Nat) (bs : ℚ) (bi : Int),
      (findBestMatchAux d tT cs k0 bs bi).1 =
          (cs.map fun c => getTextSimilarity d tT c.text).foldl max bs ∧
      bs ≤ (findBestMatchAux d tT cs k0 bs bi).1 ∧
      (∀ c ∈ cs, getTextSimilarity d tT c.text ≤ (findBestMatchAux d tT cs k0 bs bi).1) ∧
      ((findBestMatchAux d tT cs k0 bs bi).1 = bs →
        (findBestMatchAux d tT cs k0 bs bi).2 = bi) ∧
      (bs < (findBestMatchAux d tT cs k0 bs bi).1 →
        ∃ k, ∃ hk : k < cs.length,
          (findBestMatchAux d tT cs k0 bs bi).2 = ((k0 + k : Nat) : Int) ∧
          getTextSimilarity d tT (cs.get ⟨k, hk⟩).text =
            (findBestMatchAux d tT cs k0 bs bi).1 ∧
          ∀ k', ∀ hk' : k' < cs.length, k' < k →
            getTextSimilarity d tT (cs.get ⟨k', hk'⟩).text <
              (findBestMatchAux d tT cs k0 bs bi).1) := by
  intro cs
  induction cs with
  | nil =>
    intro k0 bs bi
    simp [findBestMatchAux]
  | cons c cs ih =>
    intro k0 bs bi
    by_cases hgt : bs < getTextSimilarity d tT c.text
    · have heq : findBestMatchAux d tT (c :: cs) k0 bs bi =
          findBestMatchAux d tT cs (k0 + 1) (getTextSimilarity d tT c.text) (k0 : Int) := by
        simp [findBestMatchAux, hgt]
      obtain ⟨A, B, C, D, Ex⟩ := ih (k0 + 1) (getTextSimilarity d tT c.text) (k0 : Int)
      rw [heq]
      refine ⟨?_, le_trans (le_of_lt hgt) B, ?_, ?_, ?_⟩
      · rw [A]
        simp [max_eq_right (le_of_lt hgt)]
      · intro x hx
        rcases List.mem_cons.mp hx with h | h
        · subst h; exact B
        · exact C x h
      · intro hbs
        have h1 : bs < (findBestMatchAux d tT cs (k0 + 1)
            (getTextSimilarity d tT c.text) (k0 : Int)).1 := lt_of_lt_of_le hgt B
        rw [hbs] at h1
        exact absurd h1 (lt_irrefl bs)
      · intro _
        rcases eq_or_lt_of_le B with hEq | hLt
        · refine ⟨0, by simp, ?_, ?_, ?_⟩
          · rw [D hEq.symm]
            simp
          · simpa using hEq
          · intro k' hk' h0
            exact absurd h0 (Nat.not_lt_zero k')
        · obtain ⟨k, hk, hidx, hsc, hfirst⟩ := Ex hLt
          refine ⟨k + 1, by simpa using Nat.succ_lt_succ hk, ?_, ?_, ?_⟩
          · rw [hidx]
            congr 1
            omega
          · simpa using hsc
          · intro k' hk' hlt
            cases k' with
            | zero => simpa using hLt
            | succ k'' =>
              have h2 : k'' < cs.length := by simpa using hk'
              simpa using hfirst k'' h2 (by omega)
    · have hle : getTextSimilarity d tT c.text ≤ bs := le_of_not_lt hgt
      have heq : findBestMatchAux d tT (c :: cs) k0 bs bi =
          findBestMatchAux d tT cs (k0 + 1) bs bi := by
        simp [findBestMatchAux, hgt]
      obtain ⟨A, B, C, D, Ex⟩ := ih (k0 + 1) bs bi
      rw [heq]
      refine ⟨?_, B, ?_, D, ?_⟩
      · rw [A]
        simp [max_eq_left hle]
      · intro x hx
        rcases List.mem_cons.mp hx with h | h
        · subst h; exact le_trans hle B
        · exact C x h
      · intro hlt
        obtain ⟨k, hk, hidx, hsc, hfirst⟩ := Ex hlt
        refine ⟨k + 1, by simpa using Nat.succ_lt_succ hk, ?_, ?_, ?_⟩
        · rw [hidx]
          congr 1
          omega
        · simpa using hsc
        · intro k' hk' hlt'
          cases k' with
          | zero => simpa using lt_of_le_of_lt hle hlt
          | succ k'' =>
            have h2 : k'' < cs.length := by simpa using hk'
            simpa using hfirst k'' h2 (by omega)

end BestMatchLemmas

/-- Claim C1: for every pair of finite block lists, the decision list returned
by `createOptimalAlignment` covers both inputs exactly — the left references
taken in order are `0, 1, ..., len(left) - 1`, each exactly once, and likewise
the right references; no block is skipped or duplicated. -/
theorem claim_c1_alignment_coverage (d : DiffFn) (leftLines rightLines : List Line) :
    (createOptimalAlignment d leftLines rightLines).filterMap (fun dec => dec.leftIndex) =
        List.range leftLines.length ∧
    (createOptimalAlignment d leftLines rightLines).filterMap (fun dec => dec.rightIndex) =
        List.range rightLines.length := by
  obtain ⟨hl, hr⟩ := alignFuel_refs d leftLines rightLines
    (leftLines.length + rightLines.length) 0 0 (by omega)
  constructor
  · rw [createOptimalAlignment, hl, Nat.sub_zero, List.range_eq_range']
  · rw [createOptimalAlignment, hr, Nat.sub_zero, List.range_eq_range']

/-- Claim C2 counterexample: a forced `match` pair of different kinds (a table
block versus a text block) whose plain texts agree is classified `'none'` on
both sides with no counter increments — the source falls through to
`areTextsEqual` for such pairs instead of marking them `Modified`. -/
theorem claim_c2_counterexample :
    (mkTable "x").isTable = true ∧ (mkText "x").isTable = false ∧
    classifyMatch E0 (mkTable "x") (mkText "x") =
      ⟨spreadWith (mkTable "x") "none", spreadWith (mkText "x") "none", 0, 0⟩ := by
  refine ⟨rfl, rfl, ?_⟩
  decide

/-- Claim C2 (amended): a `match` pair that is not two tables and not two
images — in particular any pair of mismatched kinds — is classified by the
text rules: equal normalized texts give `'none'` on both sides with no
increments; otherwise the word-level diff delegate is invoked and both sides
are `'modified'` with additions and deletions each incremented by 1. -/
theorem claim_c2_mixed_kind_classification (E : Externals) (leftLine rightLine : Line)
    (hnt : (leftLine.isTable && rightLine.isTable) = false)
    (hni : (leftLine.isImage && rightLine.isImage) = false) :
    classifyMatch E leftLine rightLine =
      if areTextsEqual leftLine.text rightLine.text then
        ⟨spreadWith leftLine "none", spreadWith rightLine "none", 0, 0⟩
      else
        ⟨spreadDiff leftLine (E.wordLevelDiff leftLine.html rightLine.html).1,
          spreadDiff rightLine (E.wordLevelDiff leftLine.html rightLine.html).2, 1, 1⟩ := by
  unfold classifyMatch
  simp [hnt, hni]

/-- Claim C2 witness: the amended rule applied to a concrete table/text pair. -/
theorem claim_c2_witness :
    classifyMatch E0 (mkTable "x") (mkText "x") =
      if areTextsEqual (mkTable "x").text (mkText "x").text then
        ⟨spreadWith (mkTable "x") "none", spreadWith (mkText "x") "none", 0, 0⟩
      else
        ⟨spreadDiff (mkTable "x") (E0.wordLevelDiff (mkTable "x").html (mkText "x").html).1,
          spreadDiff (mkText "x") (E0.wordLevelDiff (mkTable "x").html (mkText "x").html).2,
          1, 1⟩ :=
  claim_c2_mixed_kind_classification E0 (mkTable "x") (mkText "x") (by decide) (by decide)

/-- Claim C5: aligning an empty left list against `R` yields exactly `len(R)`
`addition` decisions, one per right block in order; the processed output has
`len(R)` left placeholders tagged `empty-space-added`, each carrying the
corresponding right block's kind and text, and the summary is
`{additions: len(R), deletions: 0, changes: len(R)}`. -/
theorem claim_c5_pure_insertion (E : Externals) (R : List Line) :
    createOptimalAlignment E.diff [] R =
        (List.range R.length).map (fun k => ⟨none, some k, "addition"⟩) ∧
    performLineMutualComparison E [] R =
      (R.map additionPlaceholder, R.map (fun r => spreadWith r "added"),
        ⟨R.length, 0, R.length⟩) := by
  have halign : createOptimalAlignment E.diff [] R =
      (List.range' 0 R.length).map (fun k => ⟨none, some k, "addition"⟩) := by
    rw [createOptimalAlignment]
    have h := alignFuel_nil_left E.diff R
      (([] : List Line).length + R.length) 0 0 (by simp)
    simpa using h
  constructor
  · rw [halign, List.range_eq_range']
  · simp only [performLineMutualComparison]
    rw [halign, processDecisions_additions E R R.length 0 (by omega)]
    simp

/-- Claim C6: the similarity metric is 1 on two empty strings, 0 when exactly
one is empty, otherwise the summed length of the oracle's equal spans divided
by the longer input's length; it is 1 on every identical pair and always lies
in `[0, 1]` (for any oracle satisfying the stated contract). -/
theorem claim_c6_similarity_spec (d : DiffFn) (hd : DiffOracleOk d) :
    getTextSimilarity d "" "" = 1 ∧
    (∀ a : String, a ≠ "" → getTextSimilarity d "" a = 0 ∧ getTextSimilarity d a "" = 0) ∧
    (∀ a b : String, a ≠ "" → b ≠ "" →
      getTextSimilarity d a b =
        (equalLen (d a b) : ℚ) / ((max a.length b.length : Nat) : ℚ)) ∧
    (∀ a : String, getTextSimilarity d a a = 1) ∧
    (∀ a b : String, 0 ≤ getTextSimilarity d a b ∧ getTextSimilarity d a b ≤ 1) := by
  refine ⟨getTextSimilarity_both_empty d, ?_, ?_, ?_, ?_⟩
  · intro a ha
    exact ⟨getTextSimilarity_empty_left d a ha, getTextSimilarity_empty_right d a ha⟩
  · intro a b ha hb
    exact getTextSimilarity_eq_div d a b ha hb
  · intro a
    exact getTextSimilarity_self hd a
  · intro a b
    exact ⟨getTextSimilarity_nonneg d a b, getTextSimilarity_le_one hd a b⟩

/-- Claim C6 witness: the stated values at concrete inputs, through a concrete
oracle satisfying the contract. -/
theorem claim_c6_witness :
    getTextSimilarity simpleDiff "" "" = 1 ∧ getTextSimilarity simpleDiff "" "x" = 0 ∧
    getTextSimilarity simpleDiff "ab" "ab" = 1 :=
  ⟨(claim_c6_similarity_spec simpleDiff simpleDiff_ok).1,
    ((claim_c6_similarity_spec simpleDiff simpleDiff_ok).2.1 "x" (by decide)).1,
    (claim_c6_similarity_spec simpleDiff simpleDiff_ok).2.2.2.1 "ab"⟩

/-- Claim C7: aligning a block list against itself (each line's element
present, as extraction guarantees) yields only `match` decisions pairing each
block with itself; normalized-text self-equality and table/image structural
self-equality hold, every output block on both sides is highlighted `'none'`,
and the summary is all zeroes. -/
theorem claim_c7_identity (E : Externals) (L : List Line)
    (helem : ∀ l ∈ L, l.element.isSome = true) :
    createOptimalAlignment E.diff L L =
        (List.range L.length).map (fun k => ⟨some k, some k, "match"⟩) ∧
    (∀ l ∈ L, areTextsEqual l.text l.text = true) ∧
    (∀ l ∈ L, (l.isTable = true → compareTableContent l.element l.element = true) ∧
      (l.isImage = true → compareImageContent l.element l.element = true)) ∧
    performLineMutualComparison E L L =
      (L.map (fun l => spreadWith l "none"), L.map (fun l => spreadWith l "none"),
        ⟨0, 0, 0⟩) := by
  have halign : createOptimalAlignment E.diff L L =
      (List.range' 0 L.length).map (fun k => ⟨some k, some k, "match"⟩) := by
    rw [createOptimalAlignment]
    have h := alignFuel_self E.diff L (L.length + L.length) 0 (by omega)
    simpa using h
  refine ⟨?_, ?_, ?_, ?_⟩
  · rw [halign, List.range_eq_range']
  · intro l _
    exact areTextsEqual_self l.text
  · intro l hl
    obtain ⟨e, he⟩ := Option.isSome_iff_exists.mp (helem l hl)
    refine ⟨fun _ => ?_, fun _ => ?_⟩
    · rw [he]; exact compareTableContent_self e
    · rw [he]; exact compareImageContent_self e
  · simp only [performLineMutualComparison]
    rw [halign, processDecisions_selfMatches E L helem L.length 0 (by omega)]
    simp

/-- Claim C7 witness: identity comparison of a concrete two-block list. -/
theorem claim_c7_witness :
    performLineMutualComparison E0 [mkText "a", mkTable "t"] [mkText "a", mkTable "t"] =
      ([mkText "a", mkTable "t"].map (fun l => spreadWith l "none"),
        [mkText "a", mkTable "t"].map (fun l => spreadWith l "none"), ⟨0, 0, 0⟩) :=
  (claim_c7_identity E0 [mkText "a", mkTable "t"] (by decide)).2.2.2

/-- Claim C9: the structural-equality predicates return `false` (and, being
total functions, cannot throw) whenever either argument is null; a table pair
whose left element is missing is therefore classified `'modified'` on both
sides, over-reporting a modification rather than failing. -/
theorem claim_c9_null_structural_predicates (t : Option Elem) :
    compareTableContent none t = false ∧ compareTableContent t none = false ∧
    compareImageContent none t = false ∧ compareImageContent t none = false ∧
    (∀ (E : Externals) (leftLine rightLine : Line),
      leftLine.isTable = true → rightLine.isTable = true → leftLine.element = none →
        classifyMatch E leftLine rightLine =
          ⟨spreadWith leftLine "modified", spreadWith rightLine "modified", 1, 1⟩) := by
  refine ⟨?_, ?_, ?_, ?_, ?_⟩
  · cases t <;> rfl
  · cases t <;> rfl
  · cases t <;> rfl
  · cases t <;> rfl
  · intro E l r ht hrt he
    unfold classifyMatch
    rw [ht, hrt, he]
    simp [compareTableContent]

/-- Claim C9 witness: a table pair with a null left element is classified
modified on both sides. -/
theorem claim_c9_witness :
    classifyMatch E0 (mkTableNoElem "t") (mkTable "t") =
      ⟨spreadWith (mkTableNoElem "t") "modified", spreadWith (mkTable "t") "modified", 1, 1⟩ :=
  (claim_c9_null_structural_predicates none).2.2.2.2 E0 (mkTableNoElem "t") (mkTable "t")
    rfl rfl rfl

/-- Claim C10: whenever the body of `compareHtmlDocuments` throws, the promise
still resolves — with both sides rendered as a single equal-typed block
holding the original unmodified input HTML, an all-zero summary, and an empty
detailed report. -/
theorem claim_c10_error_fallback (leftHtml rightHtml errMsg : String) :
    compareHtmlDocumentsResolved leftHtml rightHtml (Except.error errMsg) =
        fallbackResult leftHtml rightHtml ∧
    fallbackResult leftHtml rightHtml =
      ⟨[⟨"equal", leftHtml⟩], [⟨"equal", rightHtml⟩], ⟨0, 0, 0⟩, [], [], []⟩ :=
  ⟨rfl, rfl⟩

/-- Claim C3: at an aligner step with current blocks on both sides where the
direct-match test fails, the left block is scored against the next 3 right
blocks and the right block against the next 3 left blocks; an `addition`
(insertion) consuming only the right block is emitted iff the left-ahead score
strictly exceeds both the right-ahead score and 0.8; otherwise a `deletion`
consuming only the left block is emitted iff the right-ahead score strictly
exceeds 0.8; otherwise a forced `match` consumes both blocks. -/
theorem claim_c3_lookahead_rule (d : DiffFn) (L R : List Line) (fuel i j : Nat)
    (hi : i < L.length) (hj : j < R.length)
    (hfail : ¬((0.8 : ℚ) < getTextSimilarity d (L.get ⟨i, hi⟩).text (R.get ⟨j, hj⟩).text ∨
      areTextsEqual (L.get ⟨i, hi⟩).text (R.get ⟨j, hj⟩).text = true)) :
    (alignFuel d L R (fuel + 1) i j =
      (if (findBestMatch d (R.get ⟨j, hj⟩) ((L.drop (i + 1)).take 3)).1 <
            (findBestMatch d (L.get ⟨i, hi⟩) ((R.drop (j + 1)).take 3)).1 ∧
          (0.8 : ℚ) < (findBestMatch d (L.get ⟨i, hi⟩) ((R.drop (j + 1)).take 3)).1 then
        ⟨none, some j, "addition"⟩ :: alignFuel d L R fuel i (j + 1)
      else if (0.8 : ℚ) < (findBestMatch d (R.get ⟨j, hj⟩) ((L.drop (i + 1)).take 3)).1 then
        ⟨some i, none, "deletion"⟩ :: alignFuel d L R fuel (i + 1) j
      else ⟨some i, some j, "match"⟩ :: alignFuel d L R fuel (i + 1) (j + 1))) ∧
    ((alignFuel d L R (fuel + 1) i j).head? = some ⟨none, some j, "addition"⟩ ↔
      ((findBestMatch d (R.get ⟨j, hj⟩) ((L.drop (i + 1)).take 3)).1 <
          (findBestMatch d (L.get ⟨i, hi⟩) ((R.drop (j + 1)).take 3)).1 ∧
        (0.8 : ℚ) < (findBestMatch d (L.get ⟨i, hi⟩) ((R.drop (j + 1)).take 3)).1)) ∧
    ((alignFuel d L R (fuel + 1) i j).head? = some ⟨some i, none, "deletion"⟩ ↔
      (¬((findBestMatch d (R.get ⟨j, hj⟩) ((L.drop (i + 1)).take 3)).1 <
            (findBestMatch d (L.get ⟨i, hi⟩) ((R.drop (j + 1)).take 3)).1 ∧
          (0.8 : ℚ) < (findBestMatch d (L.get ⟨i, hi⟩) ((R.drop (j + 1)).take 3)).1) ∧
        (0.8 : ℚ) < (findBestMatch d (R.get ⟨j, hj⟩) ((L.drop (i + 1)).take 3)).1)) := by
  have hstep := alignFuel_step_else d L R fuel i j hi hj hfail
  by_cases h1 : (findBestMatch d (R.get ⟨j, hj⟩) ((L.drop (i + 1)).take 3)).1 <
      (findBestMatch d (L.get ⟨i, hi⟩) ((R.drop (j + 1)).take 3)).1 ∧
      (0.8 : ℚ) < (findBestMatch d (L.get ⟨i, hi⟩) ((R.drop (j + 1)).take 3)).1
  · have hout : alignFuel d L R (fuel + 1) i j =
        ⟨none, some j, "addition"⟩ :: alignFuel d L R fuel i (j + 1) := by
      rw [hstep, if_pos h1]
    refine ⟨hstep, ?_, ?_⟩
    · rw [hout]
      exact ⟨fun _ => h1, fun _ => rfl⟩
    · rw [hout]
      constructor
      · intro habs
        exact absurd habs (by simp)
      · rintro ⟨hn, _⟩
        exact absurd h1 hn
  · by_cases h2 : (0.8 : ℚ) < (findBestMatch d (R.get ⟨j, hj⟩) ((L.drop (i + 1)).take 3)).1
    · have hout : alignFuel d L R (fuel + 1) i j =
          ⟨some i, none, "deletion"⟩ :: alignFuel d L R fuel (i + 1) j := by
        rw [hstep, if_neg h1, if_pos h2]
      refine ⟨hstep, ?_, ?_⟩
      · rw [hout]
        constructor
        · intro habs
          exact absurd habs (by simp)
        · intro hcond
          exact absurd hcond h1
      · rw [hout]
        exact ⟨fun _ => ⟨h1, h2⟩, fun _ => rfl⟩
    · have hout : alignFuel d L R (fuel + 1) i j =
          ⟨some i, some j, "match"⟩ :: alignFuel d L R fuel (i + 1) (j + 1) := by
        rw [hstep, if_neg h1, if_neg h2]
      refine ⟨hstep, ?_, ?_⟩
      · rw [hout]
        constructor
        · intro habs
          exact absurd habs (by simp)
        · intro hcond
          exact absurd hcond h1
      · rw [hout]
        constructor
        · intro habs
          exact absurd habs (by simp)
        · rintro ⟨-, hcond⟩
          exact absurd hcond h2

/-- Claim C3 witness: both lookahead windows empty on dissimilar single-block
lists, so the lookahead path emits the forced match. -/
theorem claim_c3_witness :
    alignFuel simpleDiff [mkText "abc"] [mkText "xyz"] (1 + 1) 0 0 =
      [⟨some 0, some 0, "match"⟩] := by
  have hfail : ¬((0.8 : ℚ) <
        getTextSimilarity simpleDiff (mkText "abc").text (mkText "xyz").text ∨
      areTextsEqual (mkText "abc").text (mkText "xyz").text = true) := by
    rw [show (mkText "abc").text = "abc" from rfl, show (mkText "xyz").text = "xyz" from rfl,
      simpleDiff_sim]
    rintro (h | h)
    · simp only [show ("abc" = "xyz") = False from by simp] at h
      norm_num at h
    · exact absurd h (by decide)
  have h := (claim_c3_lookahead_rule simpleDiff [mkText "abc"] [mkText "xyz"] 1 0 0
    (by norm_num) (by norm_num) hfail).1
  rw [h]
  rw [if_neg ?hc1, if_neg ?hc2]
  case hc1 =>
    show ¬((findBestMatchAux simpleDiff _ [] 0 0 (-1)).1 <
        (findBestMatchAux simpleDiff _ [] 0 0 (-1)).1 ∧ (0.8 : ℚ) <
        (findBestMatchAux simpleDiff _ [] 0 0 (-1)).1)
    norm_num [findBestMatchAux]
  case hc2 =>
    show ¬((0.8 : ℚ) < (findBestMatchAux simpleDiff _ [] 0 0 (-1)).1)
    norm_num [findBestMatchAux]
  rw [alignFuel_stop simpleDiff _ _ 1 1 1 (by norm_num) (by norm_num)]

/-- Claim C4: a direct `match` consuming both blocks is emitted when the
normalized texts are equal or the similarity strictly exceeds 0.8; and at
similarity exactly 0.8 with unequal normalized texts the direct match is not
taken — the step is the lookahead branch instead (strict comparison). -/
theorem claim_c4_direct_match_rule (d : DiffFn) (L R : List Line) (fuel i j : Nat)
    (hi : i < L.length) (hj : j < R.length) :
    (((0.8 : ℚ) < getTextSimilarity d (L.get ⟨i, hi⟩).text (R.get ⟨j, hj⟩).text ∨
        areTextsEqual (L.get ⟨i, hi⟩).text (R.get ⟨j, hj⟩).text = true) →
      alignFuel d L R (fuel + 1) i j =
        ⟨some i, some j, "match"⟩ :: alignFuel d L R fuel (i + 1) (j + 1)) ∧
    ((getTextSimilarity d (L.get ⟨i, hi⟩).text (R.get ⟨j, hj⟩).text = 0.8 ∧
        areTextsEqual (L.get ⟨i, hi⟩).text (R.get ⟨j, hj⟩).text = false) →
      alignFuel d L R (fuel + 1) i j =
        (if (findBestMatch d (R.get ⟨j, hj⟩) ((L.drop (i + 1)).take 3)).1 <
              (findBestMatch d (L.get ⟨i, hi⟩) ((R.drop (j + 1)).take 3)).1 ∧
            (0.8 : ℚ) < (findBestMatch d (L.get ⟨i, hi⟩) ((R.drop (j + 1)).take 3)).1 then
          ⟨none, some j, "addition"⟩ :: alignFuel d L R fuel i (j + 1)
        else if (0.8 : ℚ) < (findBestMatch d (R.get ⟨j, hj⟩) ((L.drop (i + 1)).take 3)).1 then
          ⟨some i, none, "deletion"⟩ :: alignFuel d L R fuel (i + 1) j
        else ⟨some i, some j, "match"⟩ :: alignFuel d L R fuel (i + 1) (j + 1))) := by
  constructor
  · exact alignFuel_step_match d L R fuel i j hi hj
  · rintro ⟨hsim, heq⟩
    apply alignFuel_step_else
    rintro (h | h)
    · rw [hsim] at h
      exact absurd h (by norm_num)
    · rw [heq] at h
      exact absurd h (by simp)

/-- Claim C4 witness: a concrete pair with similarity exactly 0.8 and unequal
texts takes the lookahead path (here ending in a forced match). -/
theorem claim_c4_witness :
    getTextSimilarity headDiff (mkText "aaaab").text (mkText "aaaac").text = 0.8 ∧
    alignFuel headDiff [mkText "aaaab"] [mkText "aaaac"] (1 + 1) 0 0 =
      [⟨some 0, some 0, "match"⟩] := by
  have hsim : getTextSimilarity headDiff (mkText "aaaab").text (mkText "aaaac").text = 0.8 := by
    show getTextSimilarity headDiff "aaaab" "aaaac" = 0.8
    rw [getTextSimilarity_eq_div headDiff "aaaab" "aaaac" (by decide) (by decide),
      show equalLen (headDiff "aaaab" "aaaac") = 4 from by decide,
      show max ("aaaab".length) ("aaaac".length) = 5 from by decide]
    norm_num
  refine ⟨hsim, ?_⟩
  have h := (claim_c4_direct_match_rule headDiff [mkText "aaaab"] [mkText "aaaac"] 1 0 0
    (by norm_num) (by norm_num)).2 ⟨hsim, by decide⟩
  rw [h]
  rw [if_neg ?hc1, if_neg ?hc2]
  case hc1 =>
    show ¬((findBestMatchAux headDiff _ [] 0 0 (-1)).1 <
        (findBestMatchAux headDiff _ [] 0 0 (-1)).1 ∧ (0.8 : ℚ) <
        (findBestMatchAux headDiff _ [] 0 0 (-1)).1)
    norm_num [findBestMatchAux]
  case hc2 =>
    show ¬((0.8 : ℚ) < (findBestMatchAux headDiff _ [] 0 0 (-1)).1)
    norm_num [findBestMatchAux]
  rw [alignFuel_stop headDiff _ _ 1 1 1 (by norm_num) (by norm_num)]

/-- Claim C8 (amended): `findBestMatch` returns the maximum candidate score
floored at 0; a candidate index is reported only when that maximum is strictly
positive, in which case it is the first index attaining it (ties keep the
first); when no candidate scores above 0 — including the empty list — the
result is score 0 with index `-1` (none). -/
theorem claim_c8_best_match_spec (d : DiffFn) (targetLine : Line)
    (candidateLines : List Line) :
    (findBestMatch d targetLine candidateLines).1 =
        (candidateLines.map fun c =>
          getTextSimilarity d targetLine.text c.text).foldl max 0 ∧
    (candidateLines = [] → findBestMatch d targetLine candidateLines = (0, -1)) ∧
    (∀ c ∈ candidateLines, getTextSimilarity d targetLine.text c.text ≤
      (findBestMatch d targetLine candidateLines).1) ∧
    ((findBestMatch d targetLine candidateLines).1 = 0 →
      (findBestMatch d targetLine candidateLines).2 = -1) ∧
    (0 < (findBestMatch d targetLine candidateLines).1 →
      ∃ k, ∃ hk : k < candidateLines.length,
        (findBestMatch d targetLine candidateLines).2 = (k : Int) ∧
        getTextSimilarity d targetLine.text (candidateLines.get ⟨k, hk⟩).text =
          (findBestMatch d targetLine candidateLines).1 ∧
        ∀ k', ∀ hk' : k' < candidateLines.length, k' < k →
          getTextSimilarity d targetLine.text (candidateLines.get ⟨k', hk'⟩).text <
            (findBestMatch d targetLine candidateLines).1) := by
  obtain ⟨A, B, C, D, Ex⟩ := findBestMatchAux_inv d targetLine.text candidateLines 0 0 (-1)
  refine ⟨A, ?_, C, D, ?_⟩
  · intro h
    subst h
    rfl
  · intro hpos
    obtain ⟨k, hk, hidx, hsc, hfirst⟩ := Ex hpos
    exact ⟨k, hk, by simpa using hidx, hsc, hfirst⟩

/-- Claim C8 counterexample: a nonempty candidate list whose only candidate
scores 0 yields index `-1`, not the index of the best-scoring candidate (0) as
the claim states. -/
theorem claim_c8_counterexample :
    [mkText "y"].length = 1 ∧
    findBestMatch simpleDiff (mkText "x") [mkText "y"] = (0, -1) := by
  refine ⟨rfl, ?_⟩
  have hs : getTextSimilarity simpleDiff (mkText "x").text (mkText "y").text = 0 := by
    rw [simpleDiff_sim]
    simp [mkText]
  show findBestMatchAux simpleDiff (mkText "x").text [mkText "y"] 0 0 (-1) = (0, -1)
  simp [findBestMatchAux, hs]

/-- Claim C8 witness: two tied top-scoring candidates; the first is kept. -/
theorem claim_c8_witness :
    findBestMatch simpleDiff (mkText "x") [mkText "x", mkText "x"] = (1, 0) := by
  obtain ⟨A, -, -, -, Ex⟩ :=
    claim_c8_best_match_spec simpleDiff (mkText "x") [mkText "x", mkText "x"]
  have hs : getTextSimilarity simpleDiff (mkText "x").text (mkText "x").text = 1 := by
    rw [simpleDiff_sim]
    simp
  have h1 : (findBestMatch simpleDiff (mkText "x") [mkText "x", mkText "x"]).1 = 1 := by
    rw [A]
    simp only [List.map_cons, List.map_nil, hs, List.foldl_cons, List.foldl_nil]
    norm_num
  obtain ⟨k, hk, hidx, hsc, hfirst⟩ := Ex (by rw [h1]; norm_num)
  have hk2 : k < 2 := by simpa using hk
  interval_cases k
  · exact Prod.ext_iff.mpr ⟨h1, by simpa using hidx⟩
  · have hcontra : getTextSimilarity simpleDiff (mkText "x").text (mkText "x").text <
        (findBestMatch simpleDiff (mkText "x") [mkText "x", mkText "x"]).1 :=
      hfirst 0 (by norm_num) (by norm_num)
    rw [hs, h1] at hcontra
    exact absurd hcontra (lt_irrefl 1)
